import Mathlib

/-!
Verification of `train_multi_stock.py` from the
`reinforcement-learning-stock-trader` repository, together with a model of
the custom trading environment it drives.

The repository file `custom_environment_multistock.py` (class
`CustomStockTradingEnv`) is referenced by `train_multi_stock.py` but its
source is not available here; the environment is therefore modelled from the
specification's description of its state, transition and reward (spec
sections 3, 4.2 and 8).  Monetary amounts, prices and share counts are
modelled as rationals; the spec treats equalities "floating-point tolerance
aside", so exact rational arithmetic is the intended idealisation.

The data-loading, model-selection and driver-loop logic is embedded directly
from `train_multi_stock.py`.
-/

namespace StockTrader

/-- Modelled from the spec: constructor inputs of `CustomStockTradingEnv`
(`custom_environment_multistock.py`, not in the sources): the per-stock
close-price history (the only feature the transition function reads), the
lookback window size, the maximum trade size `k`, and the starting cash
balance. -/
structure EnvConfig where
  prices : List (List ℚ)
  window_size : ℕ
  k : ℚ
  starting_balance : ℚ

/-- Modelled from the spec: mutable state of `CustomStockTradingEnv`:
current day index, cash balance, per-stock share counts, and the cumulative
per-episode histories exposed through the step `info` payload. -/
structure EnvState where
  t : ℕ
  balance : ℚ
  shares : List ℚ
  balanceHist : List ℚ
  sharesHist : List (List ℚ)
  portfolioHist : List ℚ

def numStocks (cfg : EnvConfig) : ℕ := cfg.prices.length

/-- Modelled from the spec: the episode length is the length of the available
series; with misaligned per-stock lengths the shorter series determines the
episode length (spec section 4.2 edge cases). -/
def numDays (cfg : EnvConfig) : ℕ :=
  match cfg.prices.map List.length with
  | [] => 0
  | l :: ls => ls.foldl min l

/-- Close price of every stock on day `d` (`0` when the day is out of
range, which the trade function treats as a missing price). -/
def pricesAt (cfg : EnvConfig) (d : ℕ) : List ℚ :=
  cfg.prices.map (fun ps => (ps[d]?).getD 0)

/-- Sum over stocks of share count times price. -/
def dot (xs ys : List ℚ) : ℚ := (List.zipWith (fun a b => a * b) xs ys).sum

/-- Total portfolio value of a balance/holdings pair at day `d`:
cash plus holdings times that day's close price. -/
def portfolioValueAt (cfg : EnvConfig) (d : ℕ) (bal : ℚ) (shares : List ℚ) : ℚ :=
  bal + dot shares (pricesAt cfg d)

/-- Modelled from the spec: one stock's trade inside `CustomStockTradingEnv.step`.
The action value `a` is scaled by the maximum trade size `k` into a desired
quantity; a trade at a non-positive (or missing, encoded `0`) price is a
no-op; an oversized buy is clipped to the maximum affordable quantity and an
oversized sell to the current holdings, so balance and holdings never go
negative. -/
def tradeOne (k p a bal hold : ℚ) : ℚ × ℚ :=
  if p ≤ 0 then (bal, hold)
  else
    let desired := a * k
    if 0 ≤ desired then
      let q := min desired (bal / p)
      (bal - q * p, hold + q)
    else
      let q := min (-desired) hold
      (bal + q * p, hold - q)

/-- Modelled from the spec: apply the per-stock trades in stock order,
threading the cash balance; returns the final balance and new holdings. -/
def tradeAll (k : ℚ) (bal : ℚ) : List ℚ → List ℚ → List ℚ → ℚ × List ℚ
  | p :: ps, h :: hs, a :: acts =>
      ((tradeAll k (tradeOne k p a bal h).1 ps hs acts).1,
        (tradeOne k p a bal h).2 :: (tradeAll k (tradeOne k p a bal h).1 ps hs acts).2)
  | _, hs, _ => (bal, hs)

/-- Observation: the most recent `window_size` days of features for every
stock, concatenated with the portfolio state (balance and holdings). -/
def observationOf (cfg : EnvConfig) (s : EnvState) : List (List ℚ) × ℚ × List ℚ :=
  (cfg.prices.map (fun ps => ((ps.drop (s.t - cfg.window_size)).take cfg.window_size)),
   s.balance, s.shares)

/-- Modelled from the spec: the state produced by `reset`: starting balance,
zero holdings, day index `window_size` (the first index with a full lookback
window); the episode histories start with the initial snapshot. -/
def resetState (cfg : EnvConfig) : EnvState :=
  { t := cfg.window_size
    balance := cfg.starting_balance
    shares := List.replicate (numStocks cfg) 0
    balanceHist := [cfg.starting_balance]
    sharesHist := [List.replicate (numStocks cfg) 0]
    portfolioHist := [cfg.starting_balance] }

/-- Modelled from the spec: `CustomStockTradingEnv.reset` discards whatever
state the environment was in and returns the initial observation. -/
def reset (cfg : EnvConfig) (_prev : EnvState) :
    EnvState × (List (List ℚ) × ℚ × List ℚ) :=
  (resetState cfg, observationOf cfg (resetState cfg))

/-- Result of one environment step: new state, observation, scalar reward and
done flag (the histories inside the state are the `info` payload). -/
structure StepResult where
  state : EnvState
  obs : List (List ℚ) × ℚ × List ℚ
  reward : ℚ
  done : Bool

/-- Modelled from the spec: `CustomStockTradingEnv.step`: trade every stock at
the current day's close price with clipping, record the post-trade snapshot,
emit the change in total portfolio value from the prior day as reward,
advance the day index, and report done when the index reaches the end of the
available series. -/
def step (cfg : EnvConfig) (s : EnvState) (action : List ℚ) : StepResult :=
  let pr := pricesAt cfg s.t
  let bal := (tradeAll cfg.k s.balance pr s.shares action).1
  let shares := (tradeAll cfg.k s.balance pr s.shares action).2
  let newVal := bal + dot shares pr
  let prevVal := s.balance + dot s.shares (pricesAt cfg (s.t - 1))
  let s' : EnvState :=
    { t := s.t + 1
      balance := bal
      shares := shares
      balanceHist := s.balanceHist ++ [bal]
      sharesHist := s.sharesHist ++ [shares]
      portfolioHist := s.portfolioHist ++ [newVal] }
  { state := s'
    obs := observationOf cfg s'
    reward := newVal - prevVal
    done := decide (numDays cfg ≤ s.t + 1) }

/-- Run the environment from a state through a list of action vectors. -/
def runSteps (cfg : EnvConfig) : EnvState → List (List ℚ) → EnvState
  | s, [] => s
  | s, a :: acts => runSteps cfg (step cfg s a).state acts

/-! ## Embedding of `train_multi_stock.py`

A CSV file / pandas dataframe is a column-name list plus rows of string
cells; pandas compares `Date` strings lexicographically, which the string
order models directly. -/

/-- Lexicographic comparison of character lists, the order Python/pandas use
on `"YYYY-MM-DD"` date strings (computable so that concrete runs reduce). -/
def charsLe : List Char → List Char → Bool
  | [], _ => true
  | _ :: _, [] => false
  | a :: as, b :: bs =>
      if a < b then true
      else if b < a then false
      else charsLe as bs

/-- `a <= b` on strings, as Python compares `Date` strings. -/
def strLe (a b : String) : Bool := charsLe a.data b.data

/-- `s.endswith(suffix)` of Python: the suffix test used on trained-model
paths. -/
def strEndsWith (s suffix : String) : Bool := suffix.data.isSuffixOf s.data

structure DataFrame where
  columns : List String
  rows : List (List String)
deriving DecidableEq

/-- Cell of a row under column `c` of a column list (empty when the column
or the cell is absent). -/
def cellAt (cols : List String) (c : String) (r : List String) : String :=
  match cols.findIdx? (fun x => x == c) with
  | some i => (r[i]?).getD ""
  | none => ""

/-- The `Date` cell of a row. -/
def dateOf (cols : List String) (r : List String) : String := cellAt cols "Date" r

/-- Line 52 of `train`, the date-range filter
`df[(df["Date"] >= start_date) & (df["Date"] <= end_date)]`:
keep the rows whose date is inside the inclusive range. -/
def trainFilter (df : DataFrame) (startD endD : String) : DataFrame :=
  { columns := df.columns
    rows := df.rows.filter
      (fun r => strLe startD (dateOf df.columns r) && strLe (dateOf df.columns r) endD) }

/-- The date filter of `evaluate` (lines 118-122): an `end_date` of `None`
or `"Present"` keeps every row with `Date >= start_date`, otherwise the
inclusive two-sided range is applied. -/
def evalFilter (df : DataFrame) (startD : String) (endD : Option String) : DataFrame :=
  match endD with
  | none =>
      { columns := df.columns
        rows := df.rows.filter (fun r => strLe startD (dateOf df.columns r)) }
  | some e =>
      if e == "Present" then
        { columns := df.columns
          rows := df.rows.filter (fun r => strLe startD (dateOf df.columns r)) }
      else trainFilter df startD e

/-- Line 53, `df = df[features]`: restrict and reorder the columns to the
caller-supplied features list. -/
def selectCols (df : DataFrame) (features : List String) : DataFrame :=
  { columns := features
    rows := df.rows.map (fun r => features.map (fun f => cellAt df.columns f r)) }

/-- A date-indexed stock series, the result of `df.set_index("Date")`
(line 55). -/
structure StockSeries where
  index : List String
  columns : List String
  rows : List (List String)
deriving DecidableEq

/-- Line 55, `df.set_index(c)`: move column `c` into the index.
The `pd.to_datetime` call of line 54 only changes the dtype of the date
values and is modelled as the identity on the date strings. -/
def setIndex (df : DataFrame) (c : String) : StockSeries :=
  { index := df.rows.map (fun r => cellAt df.columns c r)
    columns := df.columns.filter (fun x => !(x == c))
    rows := df.rows.map
      (fun r => ((df.columns.zip r).filter (fun p => !(p.1 == c))).map Prod.snd) }

/-- Lines 52-55 of `train` applied to one stock's CSV: date-range filter,
feature selection, date index. -/
def processOne (csv : DataFrame) (startD endD : String) (features : List String) : StockSeries :=
  setIndex (selectCols (trainFilter csv startD endD) features) "Date"

/-- Lines 118-125 of `evaluate` applied to one stock's CSV. -/
def evalProcessOne (csv : DataFrame) (startD : String) (endD : Option String)
    (features : List String) : StockSeries :=
  setIndex (selectCols (evalFilter csv startD endD) features) "Date"

/-- The data-loading loop of `train` (lines 46-56): a stock whose full CSV
has fewer than `training_period_length` rows is skipped with `continue`;
every other stock is filtered, selected, indexed and appended. -/
def trainLoad (csvs : List DataFrame) (training_period_length : ℕ)
    (startD endD : String) (features : List String) : List StockSeries :=
  csvs.foldr
    (fun csv acc =>
      if csv.rows.length < training_period_length then acc
      else processOne csv startD endD features :: acc)
    []

/-- The data-loading loop of `evaluate` (lines 113-126), with the
`None`/`"Present"` handling of the end date. -/
def evalLoad (csvs : List DataFrame) (testing_period_length : ℕ)
    (startD : String) (endD : Option String) (features : List String) : List StockSeries :=
  csvs.foldr
    (fun csv acc =>
      if csv.rows.length < testing_period_length then acc
      else evalProcessOne csv startD endD features :: acc)
    []

/-- The two supported algorithm families. -/
inductive ModelFamily where
  | PPO : ModelFamily
  | A2C : ModelFamily
deriving DecidableEq

/-- Lines 61-66 of `train`: the `model_name` selector; anything but
`"PPO"`/`"A2C"` raises `ValueError("Please select PPO or A2C")`. -/
def selectTrainModel (model_name : String) : Except String ModelFamily :=
  if model_name == "PPO" then Except.ok ModelFamily.PPO
  else if model_name == "A2C" then Except.ok ModelFamily.A2C
  else Except.error "Please select PPO or A2C"

/-- Lines 130-135 of `evaluate` (and the same pattern in `evaluate_both`):
the loader is chosen by the trailing suffix of the trained-model path;
any other suffix raises `ValueError("Please select PPO or A2C")`. -/
def selectEvalModel (trained_model : String) : Except String ModelFamily :=
  if strEndsWith trained_model "PPO" then Except.ok ModelFamily.PPO
  else if strEndsWith trained_model "A2C" then Except.ok ModelFamily.A2C
  else Except.error "Please select PPO or A2C"

/-- The trajectory read out of the `info` payload in the `done` branch of
the driver loops (`account_balance`, `num_shares`, `total_portfolio_value`). -/
structure Trajectory where
  balances : List ℚ
  shares : List (List ℚ)
  values : List ℚ

/-- The rollout loop of `train`/`evaluate`/`evaluate_both` (lines 77-86,
140-149, 206-215, 230-239): step the environment up to `fuel` times with the
externally chosen actions (`policy i` abstracts `model.predict(obs)` at
iteration `i`); the trajectory variables are bound only inside the
`if done:` branch, so the loop yields `none` when `done` never fires. -/
def driverAux (cfg : EnvConfig) (policy : ℕ → List ℚ) : ℕ → ℕ → EnvState → Option Trajectory
  | _, 0, _ => none
  | i, fuel + 1, s =>
      let r := step cfg s (policy i)
      if r.done then
        some { balances := r.state.balanceHist
               shares := r.state.sharesHist
               values := r.state.portfolioHist }
      else driverAux cfg policy (i + 1) fuel r.state

/-- The full driver loop: `env.reset()` followed by
`for i in range(np.array(dfs).shape[1]): ...` with `budget` iterations. -/
def driverLoop (cfg : EnvConfig) (policy : ℕ → List ℚ) (budget : ℕ) : Option Trajectory :=
  driverAux cfg policy 0 budget (resetState cfg)

/-- The report after the driver loop (lines 88-90, 154-157): it reads
`account_balances[-1]`, `num_shares[-1]`, `total_portfolio_value[-1]`, names
that are bound only if the `done` branch ran; when it never ran the lookup
fails (Python raises `NameError`). -/
def reportFinal (r : Option Trajectory) : Except String (ℚ × List ℚ × ℚ) :=
  match r with
  | none => Except.error "NameError: name account_balances is not defined"
  | some tr => Except.ok (tr.balances.getLastD 0, tr.shares.getLastD [], tr.values.getLastD 0)

/-- Lines 58-90 of `train` after data loading: environment construction,
model selection, learning (external, no effect on the environment model),
rollout and report.  The selector runs before `model.learn` and before any
`env.step`, so an invalid `model_name` aborts with the `ValueError` and no
simulation output exists. -/
def trainRun (cfg : EnvConfig) (model_name : String) (policy : ℕ → List ℚ)
    (budget : ℕ) : Except String (ModelFamily × Option Trajectory) :=
  match selectTrainModel model_name with
  | Except.error msg => Except.error msg
  | Except.ok fam => Except.ok (fam, driverLoop cfg policy budget)

/-- Lines 128-157 of `evaluate`: loader selection by path suffix, then
rollout and report; an invalid suffix aborts before `env.reset`. -/
def evalRun (cfg : EnvConfig) (trained_model : String) (policy : ℕ → List ℚ)
    (budget : ℕ) : Except String (ModelFamily × Option Trajectory) :=
  match selectEvalModel trained_model with
  | Except.error msg => Except.error msg
  | Except.ok fam => Except.ok (fam, driverLoop cfg policy budget)

/-! ### Concrete instances used by witnesses and counterexamples -/

/-- A two-stock configuration: five days of close prices, window 1,
maximum trade size 100, starting balance 100000. -/
def cfgEx : EnvConfig :=
  { prices := [[10, 10, 10, 12, 12], [5, 5, 5, 5, 5]]
    window_size := 1
    k := 100
    starting_balance := 100000 }

/-- A stock CSV with three rows, of which only the first two fall in the
range 2021-01-01 .. 2021-01-02; dates ascending. -/
def csvC4 : DataFrame :=
  { columns := ["Date", "Close"]
    rows := [["2021-01-01", "10"], ["2021-01-02", "11"], ["2025-06-01", "12"]] }

/-- A stock CSV whose rows are not in ascending date order. -/
def csvC6 : DataFrame :=
  { columns := ["Date", "Close"]
    rows := [["2021-01-05", "1"], ["2021-01-02", "2"]] }

/-! ## Lemmas -/

theorem dot_replicate_zero (n : ℕ) (ys : List ℚ) : dot (List.replicate n 0) ys = 0 := by
  induction n generalizing ys with
  | zero => simp [dot]
  | succ m ih =>
    cases ys with
    | nil => simp [dot]
    | cons y ys => simpa [dot, List.replicate_succ] using ih ys

/-- The executable lexicographic comparison agrees with the lexicographic
order on character lists. -/
theorem charsLe_iff (as bs : List Char) : charsLe as bs = true ↔ ¬ bs < as := by
  induction as generalizing bs with
  | nil =>
    cases bs with
    | nil =>
      simp only [charsLe, true_iff]
      intro h
      cases h
    | cons b bs =>
      simp only [charsLe, true_iff]
      intro h
      cases h
  | cons a as ih =>
    cases bs with
    | nil =>
      simp only [charsLe, Bool.false_eq_true, false_iff, not_not]
      exact List.Lex.nil
    | cons b bs =>
      rcases lt_trichotomy a b with hab | hab | hab
      · rw [charsLe, if_pos hab]
        simp only [true_iff]
        intro h
        cases h with
        | cons h2 => exact lt_irrefl _ hab
        | rel h2 => exact lt_asymm hab h2
      · subst hab
        rw [charsLe, if_neg (lt_irrefl a), if_neg (lt_irrefl a), ih bs]
        constructor
        · intro h2 hlex
          cases hlex with
          | cons h3 => exact h2 h3
          | rel h3 => exact lt_irrefl _ h3
        · intro h2 h3
          exact h2 (List.Lex.cons h3)
      · rw [charsLe, if_neg (lt_asymm hab), if_pos hab]
        simp only [Bool.false_eq_true, false_iff, not_not]
        exact List.Lex.rel hab

/-- The embedding's string comparison is the standard lexicographic order on
strings. -/
theorem strLe_iff_le (a b : String) : strLe a b = true ↔ a ≤ b := by
  rw [strLe, charsLe_iff, String.le_iff_toList_le]
  exact not_lt

/-- Clipping keeps one stock's trade inside the available cash and holdings. -/
theorem tradeOne_nonneg (k p a bal hold : ℚ) (hb : 0 ≤ bal) (hh : 0 ≤ hold) :
    0 ≤ (tradeOne k p a bal hold).1 ∧ 0 ≤ (tradeOne k p a bal hold).2 := by
  simp only [tradeOne]
  split_ifs with hp hd
  · exact ⟨hb, hh⟩
  · have hp2 : 0 < p := lt_of_not_le hp
    constructor
    · have hq : min (a * k) (bal / p) ≤ bal / p := min_le_right _ _
      have h2 : min (a * k) (bal / p) * p ≤ bal := by
        rw [← le_div_iff₀ hp2]
        exact hq
      simpa using sub_nonneg.mpr h2
    · exact add_nonneg hh (le_min hd (div_nonneg hb hp2.le))
  · have hp2 : 0 < p := lt_of_not_le hp
    have hd2 : a * k < 0 := not_le.mp hd
    constructor
    · exact add_nonneg hb (mul_nonneg (le_min (by linarith) hh) hp2.le)
    · exact sub_nonneg.mpr (min_le_right _ _)

/-- Clipping keeps every stock's trade inside the cash and holdings. -/
theorem tradeAll_nonneg (k : ℚ) (ps : List ℚ) :
    ∀ (hs acts : List ℚ) (bal : ℚ), 0 ≤ bal → (∀ h ∈ hs, 0 ≤ h) →
      0 ≤ (tradeAll k bal ps hs acts).1 ∧ ∀ h ∈ (tradeAll k bal ps hs acts).2, 0 ≤ h := by
  induction ps with
  | nil => intro hs acts bal hb hh; exact ⟨hb, hh⟩
  | cons p ps ih =>
    intro hs acts bal hb hh
    cases hs with
    | nil => exact ⟨hb, by intro h hm; cases hm⟩
    | cons h hs =>
      cases acts with
      | nil => exact ⟨hb, hh⟩
      | cons a acts =>
        rw [tradeAll]
        have h1 := tradeOne_nonneg k p a bal h hb (hh h (by simp))
        have h2 := ih hs acts (tradeOne k p a bal h).1 h1.1
          (fun x hx => hh x (by simp [hx]))
        refine ⟨h2.1, ?_⟩
        intro x hx
        rcases List.mem_cons.mp hx with rfl | hx
        · exact h1.2
        · exact h2.2 x hx

/-- One step keeps the balance and every share count non-negative. -/
theorem step_state_nonneg (cfg : EnvConfig) (s : EnvState) (action : List ℚ)
    (hb : 0 ≤ s.balance) (hh : ∀ h ∈ s.shares, 0 ≤ h) :
    0 ≤ (step cfg s action).state.balance
    ∧ ∀ h ∈ (step cfg s action).state.shares, 0 ≤ h :=
  tradeAll_nonneg cfg.k (pricesAt cfg s.t) s.shares action s.balance hb hh

/-- Any run keeps the balance and every share count non-negative. -/
theorem runSteps_nonneg (cfg : EnvConfig) (acts : List (List ℚ)) :
    ∀ s : EnvState, 0 ≤ s.balance → (∀ h ∈ s.shares, 0 ≤ h) →
      0 ≤ (runSteps cfg s acts).balance ∧ ∀ h ∈ (runSteps cfg s acts).shares, 0 ≤ h := by
  induction acts with
  | nil => intro s hb hh; exact ⟨hb, hh⟩
  | cons a acts ih =>
    intro s hb hh
    rw [runSteps]
    have h1 := step_state_nonneg cfg s a hb hh
    exact ih _ h1.1 h1.2

/-- After any step, the last recorded portfolio value is the post-trade cash
plus holdings at the traded day's close prices. -/
theorem step_recorded (cfg : EnvConfig) (s : EnvState) (a : List ℚ) :
    (step cfg s a).state.portfolioHist.getLast?
      = some (portfolioValueAt cfg ((step cfg s a).state.t - 1)
          (step cfg s a).state.balance (step cfg s a).state.shares) := by
  simp only [step, portfolioValueAt, Nat.add_sub_cancel]
  exact List.getLast?_concat _

/-- At reset the recorded portfolio value is the starting balance, which is
also cash plus the all-zero holdings at any price. -/
theorem resetState_recorded (cfg : EnvConfig) :
    (resetState cfg).portfolioHist.getLast?
      = some (portfolioValueAt cfg ((resetState cfg).t - 1)
          (resetState cfg).balance (resetState cfg).shares) := by
  simp [resetState, portfolioValueAt, dot_replicate_zero]

/-- Along every run from reset, the last recorded portfolio value is cash
plus holdings at the last traded day's close prices. -/
theorem runSteps_recorded (cfg : EnvConfig) (acts : List (List ℚ)) :
    (runSteps cfg (resetState cfg) acts).portfolioHist.getLast?
      = some (portfolioValueAt cfg ((runSteps cfg (resetState cfg) acts).t - 1)
          (runSteps cfg (resetState cfg) acts).balance
          (runSteps cfg (resetState cfg) acts).shares) := by
  have key : ∀ (l : List (List ℚ)) (s : EnvState),
      s.portfolioHist.getLast?
          = some (portfolioValueAt cfg (s.t - 1) s.balance s.shares) →
      (runSteps cfg s l).portfolioHist.getLast?
        = some (portfolioValueAt cfg ((runSteps cfg s l).t - 1)
            (runSteps cfg s l).balance (runSteps cfg s l).shares) := by
    intro l
    induction l with
    | nil => intro s h; exact h
    | cons a l ih =>
      intro s _
      rw [runSteps]
      exact ih _ (step_recorded cfg s a)
  exact key acts _ (resetState_recorded cfg)

/-- A zero action value is a no-op on one stock when the cash is
non-negative. -/
theorem tradeOne_zero_action (k p bal hold : ℚ) (hb : 0 ≤ bal) :
    tradeOne k p 0 bal hold = (bal, hold) := by
  simp only [tradeOne, zero_mul]
  split_ifs with hp hd
  · rfl
  · have hp2 : 0 < p := lt_of_not_le hp
    rw [min_eq_left (div_nonneg hb hp2.le)]
    simp
  · exact absurd le_rfl hd

/-- The all-zero action vector is a no-op on balance and holdings. -/
theorem tradeAll_zero_actions (k : ℚ) (ps : List ℚ) :
    ∀ (hs : List ℚ) (m : ℕ) (bal : ℚ), 0 ≤ bal →
      tradeAll k bal ps hs (List.replicate m 0) = (bal, hs) := by
  induction ps with
  | nil => intro hs m bal _; rfl
  | cons p ps ih =>
    intro hs m bal hb
    cases hs with
    | nil => rfl
    | cons h hs =>
      cases m with
      | zero => rfl
      | succ m =>
        rw [List.replicate_succ, tradeAll, tradeOne_zero_action k p bal h hb]
        rw [ih hs m bal hb]

/-- A step on the all-zero action vector keeps the balance and holdings and
records the unchanged portfolio value. -/
theorem step_zero_action (cfg : EnvConfig) (s : EnvState)
    (hb : 0 ≤ s.balance) (hsh : s.shares = List.replicate (numStocks cfg) 0) :
    (step cfg s (List.replicate (numStocks cfg) 0)).state.balance = s.balance
    ∧ (step cfg s (List.replicate (numStocks cfg) 0)).state.shares = s.shares
    ∧ (step cfg s (List.replicate (numStocks cfg) 0)).state.portfolioHist
        = s.portfolioHist ++ [s.balance] := by
  have ht := tradeAll_zero_actions cfg.k (pricesAt cfg s.t) s.shares (numStocks cfg)
    s.balance hb
  refine ⟨?_, ?_, ?_⟩
  · show (tradeAll cfg.k s.balance (pricesAt cfg s.t) s.shares
        (List.replicate (numStocks cfg) 0)).1 = s.balance
    rw [ht]
  · show (tradeAll cfg.k s.balance (pricesAt cfg s.t) s.shares
        (List.replicate (numStocks cfg) 0)).2 = s.shares
    rw [ht]
  · show s.portfolioHist
        ++ [(tradeAll cfg.k s.balance (pricesAt cfg s.t) s.shares
              (List.replicate (numStocks cfg) 0)).1
            + dot (tradeAll cfg.k s.balance (pricesAt cfg s.t) s.shares
                (List.replicate (numStocks cfg) 0)).2 (pricesAt cfg s.t)]
      = s.portfolioHist ++ [s.balance]
    rw [ht, hsh, dot_replicate_zero, add_zero]

/-- The driver loop returns nothing exactly when the done flag never fires
within the fuel. -/
theorem driverAux_none_iff (cfg : EnvConfig) (policy : ℕ → List ℚ) :
    ∀ (fuel i : ℕ) (s : EnvState),
      driverAux cfg policy i fuel s = none ↔ ∀ j < fuel, s.t + j + 1 < numDays cfg := by
  intro fuel
  induction fuel with
  | zero => intro i s; simp [driverAux]
  | succ fuel ih =>
    intro i s
    rw [driverAux]
    by_cases hdone : numDays cfg ≤ s.t + 1
    · have hd : (step cfg s (policy i)).done = true := decide_eq_true hdone
      rw [if_pos hd]
      constructor
      · intro h; cases h
      · intro h; exact absurd (h 0 (Nat.succ_pos _)) (by omega)
    · have hd : (step cfg s (policy i)).done = false := decide_eq_false hdone
      rw [if_neg (by rw [hd]; exact Bool.false_ne_true)]
      rw [ih (i + 1) (step cfg s (policy i)).state]
      have hst : (step cfg s (policy i)).state.t = s.t + 1 := rfl
      rw [hst]
      constructor
      · intro h j hj
        cases j with
        | zero => omega
        | succ j2 => have h2 := h j2 (by omega); omega
      · intro h j hj
        have h2 := h (j + 1) (by omega)
        omega

/-- Selecting the features of a row keeps the `Date` cell intact when the
features list carries a `Date` column at position `j`. -/
theorem cellAt_selectRow (cols fs : List String) (j : ℕ) (r : List String)
    (hj : fs.findIdx? (fun x => x == "Date") = some j)
    (hjv : fs[j]? = some "Date") :
    cellAt fs "Date" (fs.map (fun f => cellAt cols f r)) = cellAt cols "Date" r := by
  simp only [cellAt, hj, List.getElem?_map, hjv]
  rfl

/-- The index of a processed stock series is the dates of the in-range rows
of the source CSV, in source order. -/
theorem processOne_index (csv : DataFrame) (startD endD : String) (fs : List String) (j : ℕ)
    (hj : fs.findIdx? (fun x => x == "Date") = some j)
    (hjv : fs[j]? = some "Date") :
    (processOne csv startD endD fs).index
      = (trainFilter csv startD endD).rows.map (fun r => dateOf csv.columns r) := by
  rw [processOne, setIndex, selectCols]
  simp only [List.map_map]
  refine List.map_congr_left (fun r _ => ?_)
  exact cellAt_selectRow csv.columns fs j r hj hjv

/-- The loading loop of `train` keeps exactly the CSVs whose full (pre-filter)
row count reaches the threshold, each processed in order. -/
theorem trainLoad_eq (csvs : List DataFrame) (tpl : ℕ) (startD endD : String)
    (fs : List String) :
    trainLoad csvs tpl startD endD fs
      = (csvs.filter (fun c => decide (tpl ≤ c.rows.length))).map
          (fun c => processOne c startD endD fs) := by
  induction csvs with
  | nil => rfl
  | cons c cs ih =>
    rw [trainLoad, List.foldr_cons, List.filter_cons]
    by_cases hc : c.rows.length < tpl
    · rw [if_pos hc, if_neg (by simpa using Nat.not_le_of_lt hc)]
      exact ih
    · rw [if_neg hc, if_pos (by simpa using Nat.le_of_not_lt hc), List.map_cons]
      exact congrArg _ ih

/-- The loading loop of `evaluate` keeps exactly the CSVs whose full row
count reaches the threshold. -/
theorem evalLoad_eq (csvs : List DataFrame) (tpl : ℕ) (startD : String)
    (endD : Option String) (fs : List String) :
    evalLoad csvs tpl startD endD fs
      = (csvs.filter (fun c => decide (tpl ≤ c.rows.length))).map
          (fun c => evalProcessOne c startD endD fs) := by
  induction csvs with
  | nil => rfl
  | cons c cs ih =>
    rw [evalLoad, List.foldr_cons, List.filter_cons]
    by_cases hc : c.rows.length < tpl
    · rw [if_pos hc, if_neg (by simpa using Nat.not_le_of_lt hc)]
      exact ih
    · rw [if_neg hc, if_pos (by simpa using Nat.le_of_not_lt hc), List.map_cons]
      exact congrArg _ ih

/-! ## Claim theorems -/

/-- C10: the date-range filter applied to every stock series is inclusive at
both endpoints: a row is kept if and only if
`start_date ≤ Date ≤ end_date` (string comparison on the date strings), and
in `evaluate` an `end_date` of `None` or `"Present"` keeps exactly the rows
with `Date ≥ start_date`. -/
theorem c10_date_filter_inclusive (df : DataFrame) (startD endD e : String) (r : List String) :
    (r ∈ (trainFilter df startD endD).rows ↔
      r ∈ df.rows ∧ startD ≤ dateOf df.columns r ∧ dateOf df.columns r ≤ endD)
    ∧ (r ∈ (evalFilter df startD none).rows ↔
      r ∈ df.rows ∧ startD ≤ dateOf df.columns r)
    ∧ evalFilter df startD (some "Present") = evalFilter df startD none
    ∧ (e ≠ "Present" → evalFilter df startD (some e) = trainFilter df startD e) := by
  refine ⟨?_, ?_, ?_, ?_⟩
  · rw [trainFilter]
    simp only [List.mem_filter, Bool.and_eq_true, strLe_iff_le, and_assoc]
  · rw [evalFilter]
    simp only [List.mem_filter, strLe_iff_le]
  · rw [evalFilter, evalFilter, if_pos (by rfl)]
  · intro he
    rw [evalFilter, if_neg (by simpa using he)]

/-- C5: a model-family selector that is neither `"PPO"` nor `"A2C"` (the
`model_name` of `train`; the trailing suffix of the trained-model path in
`evaluate`) makes the run abort with the `ValueError` message
`"Please select PPO or A2C"` before any simulation output is produced, while
a `"PPO"`/`"A2C"` selector deterministically picks the corresponding model
family and the run proceeds to the rollout. -/
theorem c5_selector_fails_fast (cfg : EnvConfig) (policy : ℕ → List ℚ) (budget : ℕ)
    (name path : String) :
    (name ≠ "PPO" → name ≠ "A2C" →
      trainRun cfg name policy budget = Except.error "Please select PPO or A2C")
    ∧ trainRun cfg "PPO" policy budget
        = Except.ok (ModelFamily.PPO, driverLoop cfg policy budget)
    ∧ trainRun cfg "A2C" policy budget
        = Except.ok (ModelFamily.A2C, driverLoop cfg policy budget)
    ∧ (strEndsWith path "PPO" = false → strEndsWith path "A2C" = false →
      evalRun cfg path policy budget = Except.error "Please select PPO or A2C")
    ∧ (strEndsWith path "PPO" = true →
      evalRun cfg path policy budget
        = Except.ok (ModelFamily.PPO, driverLoop cfg policy budget))
    ∧ (strEndsWith path "PPO" = false → strEndsWith path "A2C" = true →
      evalRun cfg path policy budget
        = Except.ok (ModelFamily.A2C, driverLoop cfg policy budget)) := by
  refine ⟨?_, by rfl, by rfl, ?_, ?_, ?_⟩
  · intro h1 h2
    rw [trainRun, selectTrainModel, if_neg (by simpa using h1), if_neg (by simpa using h2)]
  · intro h1 h2
    rw [evalRun, selectEvalModel, if_neg (by simp [h1]), if_neg (by simp [h2])]
  · intro h1
    rw [evalRun, selectEvalModel, if_pos (by simp [h1])]
  · intro h1 h2
    rw [evalRun, selectEvalModel, if_neg (by simp [h1]), if_pos (by simp [h2])]

/-- C1: for every episode (any action sequence from reset) the post-step
cash balance and every post-step share count are non-negative: oversized
orders are clipped by the transition function, never rejected, so the step
function is total and the invariant holds at every reachable state. -/
theorem c1_clipping_invariant (cfg : EnvConfig) (acts : List (List ℚ))
    (hsb : 0 ≤ cfg.starting_balance) :
    0 ≤ (runSteps cfg (resetState cfg) acts).balance
    ∧ ∀ h ∈ (runSteps cfg (resetState cfg) acts).shares, 0 ≤ h := by
  apply runSteps_nonneg
  · exact hsb
  · intro h hmem
    rw [List.eq_of_mem_replicate hmem]

/-- C1, witness: a concrete two-stock run with a buy and an oversized
sell/buy action. -/
theorem c1_witness :
    0 ≤ cfgEx.starting_balance
    ∧ (0 ≤ (runSteps cfgEx (resetState cfgEx) [[1, 0], [-2, 3]]).balance
       ∧ ∀ h ∈ (runSteps cfgEx (resetState cfgEx) [[1, 0], [-2, 3]]).shares, 0 ≤ h) :=
  ⟨by norm_num [cfgEx], c1_clipping_invariant cfgEx [[1, 0], [-2, 3]] (by norm_num [cfgEx])⟩

/-- C2: at every step from every reachable state, the scalar reward equals
the total portfolio value at the traded day (cash plus holdings times that
day's close price) minus the total portfolio value at the prior day, and
both of those values are exactly the recorded portfolio values before and
after the step. -/
theorem c2_reward_is_value_change (cfg : EnvConfig) (acts : List (List ℚ)) (a : List ℚ) :
    (step cfg (runSteps cfg (resetState cfg) acts) a).reward
      = portfolioValueAt cfg (runSteps cfg (resetState cfg) acts).t
          (step cfg (runSteps cfg (resetState cfg) acts) a).state.balance
          (step cfg (runSteps cfg (resetState cfg) acts) a).state.shares
        - portfolioValueAt cfg ((runSteps cfg (resetState cfg) acts).t - 1)
            (runSteps cfg (resetState cfg) acts).balance
            (runSteps cfg (resetState cfg) acts).shares
    ∧ (step cfg (runSteps cfg (resetState cfg) acts) a).state.portfolioHist.getLast?
      = some (portfolioValueAt cfg (runSteps cfg (resetState cfg) acts).t
          (step cfg (runSteps cfg (resetState cfg) acts) a).state.balance
          (step cfg (runSteps cfg (resetState cfg) acts) a).state.shares)
    ∧ (runSteps cfg (resetState cfg) acts).portfolioHist.getLast?
      = some (portfolioValueAt cfg ((runSteps cfg (resetState cfg) acts).t - 1)
          (runSteps cfg (resetState cfg) acts).balance
          (runSteps cfg (resetState cfg) acts).shares) :=
  ⟨rfl, step_recorded cfg (runSteps cfg (resetState cfg) acts) a, runSteps_recorded cfg acts⟩

/-- C3: at every step of every episode, the recorded total portfolio value
equals the cash balance plus the sum over the included stocks of share count
times that day's close price. -/
theorem c3_recorded_portfolio_value (cfg : EnvConfig) (acts : List (List ℚ)) :
    (runSteps cfg (resetState cfg) acts).portfolioHist.getLast?
      = some (portfolioValueAt cfg ((runSteps cfg (resetState cfg) acts).t - 1)
          (runSteps cfg (resetState cfg) acts).balance
          (runSteps cfg (resetState cfg) acts).shares) :=
  runSteps_recorded cfg acts

/-- C7: reset discards whatever state the environment is in, so two resets
with the same constructor inputs return identical initial observations. -/
theorem c7_reset_deterministic (cfg : EnvConfig) (s1 s2 : EnvState) :
    reset cfg s1 = reset cfg s2 := rfl

/-- C8: stepping with the all-zero action vector at every step leaves every
share count at zero, the balance at the starting balance, and every recorded
portfolio value equal to the starting balance. -/
theorem c8_zero_actions (cfg : EnvConfig) (n : ℕ) (hsb : 0 ≤ cfg.starting_balance) :
    (runSteps cfg (resetState cfg)
        (List.replicate n (List.replicate (numStocks cfg) 0))).balance
      = cfg.starting_balance
    ∧ (runSteps cfg (resetState cfg)
        (List.replicate n (List.replicate (numStocks cfg) 0))).shares
      = List.replicate (numStocks cfg) 0
    ∧ ∀ v ∈ (runSteps cfg (resetState cfg)
        (List.replicate n (List.replicate (numStocks cfg) 0))).portfolioHist,
        v = cfg.starting_balance := by
  have key : ∀ (m : ℕ) (s : EnvState),
      s.balance = cfg.starting_balance →
      s.shares = List.replicate (numStocks cfg) 0 →
      (∀ v ∈ s.portfolioHist, v = cfg.starting_balance) →
      (runSteps cfg s (List.replicate m (List.replicate (numStocks cfg) 0))).balance
          = cfg.starting_balance
      ∧ (runSteps cfg s (List.replicate m (List.replicate (numStocks cfg) 0))).shares
          = List.replicate (numStocks cfg) 0
      ∧ ∀ v ∈ (runSteps cfg s
            (List.replicate m (List.replicate (numStocks cfg) 0))).portfolioHist,
          v = cfg.starting_balance := by
    intro m
    induction m with
    | zero => intro s h1 h2 h3; exact ⟨h1, h2, h3⟩
    | succ m ih =>
      intro s h1 h2 h3
      rw [List.replicate_succ, runSteps]
      have hz := step_zero_action cfg s (by rw [h1]; exact hsb) h2
      apply ih
      · rw [hz.1, h1]
      · rw [hz.2.1, h2]
      · intro v hv
        rw [hz.2.2] at hv
        rcases List.mem_append.mp hv with hv | hv
        · exact h3 v hv
        · rw [List.mem_singleton.mp hv, h1]
  exact key n (resetState cfg) rfl rfl
    (by intro v hv; exact List.mem_singleton.mp hv)

/-- C8, witness: two zero-action steps on the concrete configuration. -/
theorem c8_witness :
    0 ≤ cfgEx.starting_balance
    ∧ ((runSteps cfgEx (resetState cfgEx)
          (List.replicate 2 (List.replicate (numStocks cfgEx) 0))).balance
        = cfgEx.starting_balance
      ∧ (runSteps cfgEx (resetState cfgEx)
          (List.replicate 2 (List.replicate (numStocks cfgEx) 0))).shares
        = List.replicate (numStocks cfgEx) 0
      ∧ ∀ v ∈ (runSteps cfgEx (resetState cfgEx)
          (List.replicate 2 (List.replicate (numStocks cfgEx) 0))).portfolioHist,
          v = cfgEx.starting_balance) :=
  ⟨by norm_num [cfgEx], c8_zero_actions cfgEx 2 (by norm_num [cfgEx])⟩

/-- C9: the trajectory names are bound only in the done branch of the driver
loop, so the report raises exactly when the done flag never fires within the
budget of iterations; when the loop does produce a trajectory the report
reads its last entries. -/
theorem c9_report_needs_termination (cfg : EnvConfig) (policy : ℕ → List ℚ) (budget : ℕ) :
    (reportFinal (driverLoop cfg policy budget)
        = Except.error "NameError: name account_balances is not defined"
      ↔ ∀ j < budget, cfg.window_size + j + 1 < numDays cfg)
    ∧ ∀ tr, driverLoop cfg policy budget = some tr →
        reportFinal (driverLoop cfg policy budget)
          = Except.ok (tr.balances.getLastD 0, tr.shares.getLastD [], tr.values.getLastD 0) := by
  have hiff : driverLoop cfg policy budget = none ↔
      ∀ j < budget, cfg.window_size + j + 1 < numDays cfg :=
    driverAux_none_iff cfg policy budget 0 (resetState cfg)
  constructor
  · constructor
    · intro h
      apply hiff.mp
      cases hopt : driverLoop cfg policy budget with
      | none => rfl
      | some tr =>
        rw [hopt] at h
        exact absurd h (by simp [reportFinal])
    · intro h
      rw [hiff.mpr h]
      rfl
  · intro tr htr
    rw [htr]
    rfl

/-- C4, counterexample: the drop decision of `train` (line 50) is taken on
the full CSV length before the date filter, not on the in-range history.
`csvC4` has only 2 rows inside the requested range, fewer than the required
minimum of 3, yet with 3 total rows it is kept (with its 2 in-range rows)
instead of being silently dropped. -/
theorem c4_counterexample :
    (trainFilter csvC4 "2021-01-01" "2021-01-02").rows.length = 2
    ∧ 2 < 3
    ∧ (trainLoad [csvC4] 3 "2021-01-01" "2021-01-02" ["Date", "Close"]).length = 1 := by
  decide

/-- C4, amended: a stock is silently dropped from `train` (and symmetrically
from `evaluate`) exactly when its full series, before the date filter, has
fewer rows than the required minimum row count; every kept stock appears in
order with its rows restricted to `start_date ≤ Date ≤ end_date`. -/
theorem c4_drop_criterion (csvs : List DataFrame) (tpl : ℕ) (startD endD : String)
    (fs : List String) (j : ℕ)
    (hj : fs.findIdx? (fun x => x == "Date") = some j)
    (hjv : fs[j]? = some "Date") :
    trainLoad csvs tpl startD endD fs
      = (csvs.filter (fun c => decide (tpl ≤ c.rows.length))).map
          (fun c => processOne c startD endD fs)
    ∧ evalLoad csvs tpl startD none fs
      = (csvs.filter (fun c => decide (tpl ≤ c.rows.length))).map
          (fun c => evalProcessOne c startD none fs)
    ∧ ∀ series ∈ trainLoad csvs tpl startD endD fs, ∀ d ∈ series.index,
        startD ≤ d ∧ d ≤ endD := by
  refine ⟨trainLoad_eq csvs tpl startD endD fs, evalLoad_eq csvs tpl startD none fs, ?_⟩
  intro series hs d hd
  rw [trainLoad_eq] at hs
  obtain ⟨c, _, rfl⟩ := List.mem_map.mp hs
  rw [processOne_index c startD endD fs j hj hjv] at hd
  obtain ⟨r, hr, rfl⟩ := List.mem_map.mp hd
  rw [trainFilter] at hr
  simp only [List.mem_filter, Bool.and_eq_true, strLe_iff_le] at hr
  exact hr.2

/-- C4, witness for the amended claim at a concrete input: one kept CSV. -/
theorem c4_witness :
    trainLoad [csvC4] 2 "2021-01-01" "2021-01-02" ["Date", "Close"]
      = (([csvC4].filter (fun c => decide (2 ≤ c.rows.length))).map
          (fun c => processOne c "2021-01-01" "2021-01-02" ["Date", "Close"]))
    ∧ evalLoad [csvC4] 2 "2021-01-01" none ["Date", "Close"]
      = (([csvC4].filter (fun c => decide (2 ≤ c.rows.length))).map
          (fun c => evalProcessOne c "2021-01-01" none ["Date", "Close"]))
    ∧ ∀ series ∈ trainLoad [csvC4] 2 "2021-01-01" "2021-01-02" ["Date", "Close"],
        ∀ d ∈ series.index, "2021-01-01" ≤ d ∧ d ≤ "2021-01-02" :=
  c4_drop_criterion [csvC4] 2 "2021-01-01" "2021-01-02" ["Date", "Close"] 0
    (by rfl) (by rfl)

/-- C6, counterexample: the data-loading phase of `train` never sorts; a
source CSV whose rows are not date-ascending yields a processed series whose
index is not in ascending date order, so row order is inherited from the
file, not re-established. -/
theorem c6_counterexample :
    (processOne csvC6 "2021-01-01" "2021-12-31" ["Date", "Close"]).index
      = ["2021-01-05", "2021-01-02"]
    ∧ ¬ List.Sorted (fun a b : String => a ≤ b)
        (processOne csvC6 "2021-01-01" "2021-12-31" ["Date", "Close"]).index := by
  have hidx : (processOne csvC6 "2021-01-01" "2021-12-31" ["Date", "Close"]).index
      = ["2021-01-05", "2021-01-02"] := by decide
  refine ⟨hidx, ?_⟩
  rw [hidx]
  intro hsort
  have hle : ("2021-01-05" : String) ≤ "2021-01-02" :=
    (List.pairwise_cons.mp hsort).1 _ (by simp)
  have : strLe "2021-01-05" "2021-01-02" = true := (strLe_iff_le _ _).mpr hle
  simp [strLe, charsLe] at this

/-- C6, amended: the output columns of the data-loading phase of `train` are
the caller-supplied features list in order with `Date` moved to the index,
and the rows keep the source file's order, hence are date-ascending whenever
the source rows are date-ascending (the code itself never sorts). -/
theorem c6_column_and_row_order (csv : DataFrame) (startD endD : String)
    (fs : List String) (j : ℕ)
    (hj : fs.findIdx? (fun x => x == "Date") = some j)
    (hjv : fs[j]? = some "Date")
    (hsorted : List.Sorted (fun a b : String => a ≤ b)
      (csv.rows.map (fun r => dateOf csv.columns r))) :
    (processOne csv startD endD fs).columns = fs.filter (fun f => !(f == "Date"))
    ∧ List.Sorted (fun a b : String => a ≤ b) (processOne csv startD endD fs).index := by
  refine ⟨rfl, ?_⟩
  rw [processOne_index csv startD endD fs j hj hjv, trainFilter]
  exact List.Pairwise.sublist (List.Sublist.map _ (List.filter_sublist csv.rows)) hsorted

/-- C6, witness for the amended claim: a date-ascending CSV stays ascending
and the columns follow the features list. -/
theorem c6_witness :
    (processOne csvC4 "2021-01-01" "2021-01-02" ["Date", "Close"]).columns
      = (["Date", "Close"].filter (fun f => !(f == "Date")))
    ∧ List.Sorted (fun a b : String => a ≤ b)
        (processOne csvC4 "2021-01-01" "2021-01-02" ["Date", "Close"]).index :=
  c6_column_and_row_order csvC4 "2021-01-01" "2021-01-02" ["Date", "Close"] 0
    (by rfl) (by rfl)
    (by
      simp only [csvC4, List.map_cons, List.map_nil, List.sorted_cons, List.mem_cons,
        List.mem_singleton, List.not_mem_nil]
      refine ⟨?_, ?_, ?_⟩
      · intro b hb
        rcases hb with hb | hb | hb
        · subst hb; exact (strLe_iff_le _ _).mp (by decide)
        · subst hb; exact (strLe_iff_le _ _).mp (by decide)
        · cases hb
      · intro b hb
        rcases hb with hb | hb
        · subst hb; exact (strLe_iff_le _ _).mp (by decide)
        · cases hb
      · simp)

end StockTrader
